import Mathlib

/-!
Verification of the `they` chess position model.

This file gives a shallow embedding of the Go packages `internal/core`
(files `core.go`, `board.go`, and the `Position` / `Position.Move`
implementation) and proves properties of the embedded definitions.

Machine integers are modelled as `Nat` with explicit reductions modulo
`2 ^ w` exactly where the Go code can overflow (`uint64` shifts inside
`Square.Bitboard`, the `uint16` ply counter, the `uint8` halfmove clock).
Go's multi-value returns `(x, ok)` are modelled as `Option` or as pairs,
matching each call site.
-/

/-- A `Bitboard` stores one bit of information per board square (`uint64`). -/
abbrev Bitboard := Nat

/-- A `Color` is `White` or `Black` (Go `type Color bool`). -/
abbrev Color := Bool

/-- Go constant `White Color = false`. -/
abbrev White : Color := false

/-- Go constant `Black Color = true`. -/
abbrev Black : Color := true

/-- Go `Color.Other`: the opposite color. -/
def Color.Other (c : Color) : Color := !c

/-- A `PieceType` is one of the six chess piece kinds.  In Go it is a
`uint8`; indexing `Board.pieces[p.PieceType]` panics unless the value is
below 6, so the embedding uses `Fin 6`. -/
abbrev PieceType := Fin 6

abbrev Pawn : PieceType := 0
abbrev Knight : PieceType := 1
abbrev Bishop : PieceType := 2
abbrev Rook : PieceType := 3
abbrev Queen : PieceType := 4
abbrev King : PieceType := 5

/-- A `Piece` is a colored piece type.  The zero value is a white pawn. -/
structure Piece where
  Color : Color
  PieceType : PieceType
deriving DecidableEq

/-- Go `NewPiece`. -/
def NewPiece (c : Color) (pt : PieceType) : Piece :=
  { Color := c, PieceType := pt }

/-- A `Square` is an index `rank*8+file` (Go `type Square uint8`). -/
abbrev Square := Nat

/-- Go `NewSquare`: the square at file `f` and rank `r`. -/
def NewSquare (f r : Nat) : Square := r * 8 + f

abbrev A1 : Square := 0
abbrev B1 : Square := 1
abbrev C1 : Square := 2
abbrev D1 : Square := 3
abbrev E1 : Square := 4
abbrev F1 : Square := 5
abbrev G1 : Square := 6
abbrev H1 : Square := 7
abbrev E2 : Square := 12
abbrev C3 : Square := 18
abbrev E3 : Square := 20
abbrev E4 : Square := 28
abbrev D5 : Square := 35
abbrev E5 : Square := 36
abbrev D6 : Square := 43
abbrev A8 : Square := 56
abbrev B8 : Square := 57
abbrev C8 : Square := 58
abbrev D8 : Square := 59
abbrev E8 : Square := 60
abbrev F8 : Square := 61
abbrev G8 : Square := 62
abbrev H8 : Square := 63

/-- Go `Square.File`: the file of `s` (`s % 8`). -/
def Square.File (s : Square) : Nat := s % 8

/-- Go `Square.Rank`: the rank of `s` (`s / 8`). -/
def Square.Rank (s : Square) : Nat := s / 8

/-- Go `Square.Bitboard`: `Bitboard(1 << s)` on `uint64`, hence the
explicit reduction modulo `2 ^ 64` (shift counts of 64 or more yield 0). -/
def Square.Bitboard (s : Square) : Bitboard := (1 <<< s) % 2 ^ 64

/-- Go `Square.Above`: the square above `s`, if any (`uint8` addition). -/
def Square.Above (s : Square) : Nat × Bool :=
  if Square.Rank s == 7 then (0, false) else ((s + 8) % 256, true)

/-- Go `Square.Below`: the square below `s`, if any. -/
def Square.Below (s : Square) : Nat × Bool :=
  if Square.Rank s == 0 then (0, false) else (s - 8, true)

/-- Modelled from the spec: `Position.Move` calls `Square.Up`, which is not
present under the provided sources (only its caller is).  Per the spec the
square used is "the square the pawn passed over", one rank up from the
pawn's origin; this matches `Square.Above` in `core.go`. -/
def Square.Up (s : Square) : Nat × Bool := Square.Above s

/-- Modelled from the spec: `Position.Move` calls `Square.Down`, which is
not present under the provided sources (only its caller is).  Per the spec
the captured pawn sits "directly behind the destination", one rank down;
this matches `Square.Below` in `core.go`. -/
def Square.Down (s : Square) : Nat × Bool := Square.Below s

/-- Go `Bitboard.Get`: the bit at `s`. -/
def Bitboard.Get (b : Bitboard) (s : Square) : Bool :=
  b &&& Square.Bitboard s != 0

/-- Go `Bitboard.Set`: sets the bit at `s`. -/
def Bitboard.Set (b : Bitboard) (s : Square) : Bitboard :=
  b ||| Square.Bitboard s

/-- Go `Bitboard.Clear`: `*b &^= s.Bitboard()`, i.e. AND NOT on `uint64`. -/
def Bitboard.Clear (b : Bitboard) (s : Square) : Bitboard :=
  b &&& ((2 ^ 64 - 1) ^^^ Square.Bitboard s)

/-- A `Castling` value is a set of castling rights (Go `uint8` bit flags). -/
abbrev Castling := Nat

abbrev WhiteOO : Castling := 1
abbrev WhiteOOO : Castling := 2
abbrev BlackOO : Castling := 4
abbrev BlackOOO : Castling := 8

/-- Go `NewCastling`: all four castling rights set. -/
def NewCastling : Castling := WhiteOO ||| WhiteOOO ||| BlackOO ||| BlackOOO

/-- Go `Castling.GetAll`: true if every right in `x` is also in `c`. -/
def Castling.GetAll (c x : Castling) : Bool := c &&& x == x

/-- Go `Castling.GetAny`: true if at least one right in `x` is also in `c`. -/
def Castling.GetAny (c x : Castling) : Bool := c &&& x != 0

/-- Go `Castling.Set`: sets in `c` all rights in `x`. -/
def Castling.Set (c x : Castling) : Castling := c ||| x

/-- Go `Castling.Clear`: `*c &^= x`, i.e. AND NOT on `uint8`. -/
def Castling.Clear (c x : Castling) : Castling := c &&& (255 ^^^ x)

/-- Go `Castling.ClearColor`: clears both castling rights of one color. -/
def Castling.ClearColor (c : Castling) (cl : Color) : Castling :=
  Castling.Clear c (if cl == White then WhiteOO ||| WhiteOOO else BlackOO ||| BlackOOO)

/-- An `EnPassant` value is the right to capture en passant (Go `uint8`);
the zero value means no right exists. -/
abbrev EnPassant := Nat

/-- Go `EnPassant.Exists`: true if the right to capture en passant exists. -/
def EnPassant.Exists (e : EnPassant) : Bool := e != 0

/-- Go `EnPassant.Square`: the square where the right exists, if any. -/
def EnPassant.Square (e : EnPassant) : Nat × Bool := (e, EnPassant.Exists e)

/-- Go `EnPassant.ExistsAt`: true if the right exists at `s`. -/
def EnPassant.ExistsAt (e : EnPassant) (s : Nat) : Bool :=
  let v := EnPassant.Square e
  v.2 && s == v.1

/-- Go `EnPassant.Set`: overwrites the receiver with square `s`. -/
def EnPassant.Set (_e : EnPassant) (s : Nat) : EnPassant := s

/-- Go `EnPassant.Clear`: overwrites the receiver with zero. -/
def EnPassant.Clear (_e : EnPassant) : EnPassant := 0

/-- A `Move` has a from square, a to square, and an optional promotion
piece type (`Pawn` is the sentinel for "no promotion"). -/
structure Move where
  From : Square
  To : Square
  promotion : PieceType
deriving DecidableEq

/-- Go `Move.IsPromotion`: true if the move is a promotion move. -/
def Move.IsPromotion (m : Move) : Bool := m.promotion != Pawn

/-- Go `Move.PromotionTo`: the promotion piece type, if any. -/
def Move.PromotionTo (m : Move) : PieceType × Bool :=
  (m.promotion, Move.IsPromotion m)

/-- A `Board` holds piece occupancy as color bitboards plus one bitboard
per piece type (Go `board.go`). -/
structure Board where
  white : Bitboard
  black : Bitboard
  pieces : Fin 6 → Bitboard

/-- Go `Board.Clear`: removes any occupant of `s`; the loop clearing `s`
in every piece bitboard is modelled pointwise. -/
def Board.Clear (b : Board) (s : Square) : Board :=
  { white := Bitboard.Clear b.white s
    black := Bitboard.Clear b.black s
    pieces := fun i => Bitboard.Clear (b.pieces i) s }

/-- Go `Board.Set`: first clears `s`, then sets the color bit and the
piece-type bit of `p` at `s`. -/
def Board.Set (b : Board) (p : Piece) (s : Square) : Board :=
  let b1 := Board.Clear b s
  let b2 :=
    if p.Color == White then { b1 with white := Bitboard.Set b1.white s }
    else { b1 with black := Bitboard.Set b1.black s }
  { b2 with
    pieces := fun i =>
      if i == p.PieceType then Bitboard.Set (b2.pieces i) s else b2.pieces i }

/-- Go `Board.Move`: `Clear(from)` then `Set(p, to)`. -/
def Board.Move (b : Board) (p : Piece) (fromSq toSq : Square) : Board :=
  Board.Set (Board.Clear b fromSq) p toSq

/-- Go `Board.IsOccupied`: true if `s` is occupied. -/
def Board.IsOccupied (b : Board) (s : Square) : Bool :=
  Bitboard.Get b.white s || Bitboard.Get b.black s

/-- Go `Board.PieceColor`: the color of the piece on `s`, if any.  (The
trivial field accessors `Board.White` and `Board.Black` of `board.go` are
the structure fields `white` and `black` here.) -/
def Board.PieceColor (b : Board) (s : Square) : Option Bool :=
  if Bitboard.Get b.white s then some White
  else if Bitboard.Get b.black s then some Black
  else none

/-- Go `Board.PieceType`: the type of the piece on `s`, if any; the Go
loop over the six piece bitboards returning the first hit is unrolled. -/
def Board.PieceType (b : Board) (s : Square) : Option (Fin 6) :=
  if Bitboard.Get (b.pieces 0) s then some 0
  else if Bitboard.Get (b.pieces 1) s then some 1
  else if Bitboard.Get (b.pieces 2) s then some 2
  else if Bitboard.Get (b.pieces 3) s then some 3
  else if Bitboard.Get (b.pieces 4) s then some 4
  else if Bitboard.Get (b.pieces 5) s then some 5
  else none

/-- Go `Board.Piece`: the piece on `s`, if any.  On an occupied square the
Go code discards the `ok` flag of `PieceType` and keeps its zero value, so
the embedding uses `Option.getD`. -/
def Board.Piece (b : Board) (s : Square) :=
  (Board.PieceColor b s).map fun c => NewPiece c ((Board.PieceType b s).getD 0)

/-- Go `NewBoard`: the starting arrangement, built from the zero board by
the same 32 `Set` calls (the two pawn loops are unrolled). -/
def NewBoard : Board :=
  let b : Board := { white := 0, black := 0, pieces := fun _ => 0 }
  let b := Board.Set b (NewPiece White Rook) A1
  let b := Board.Set b (NewPiece White Knight) B1
  let b := Board.Set b (NewPiece White Bishop) C1
  let b := Board.Set b (NewPiece White Queen) D1
  let b := Board.Set b (NewPiece White King) E1
  let b := Board.Set b (NewPiece White Bishop) F1
  let b := Board.Set b (NewPiece White Knight) G1
  let b := Board.Set b (NewPiece White Rook) H1
  let b := Board.Set b (NewPiece White Pawn) (NewSquare 0 1)
  let b := Board.Set b (NewPiece White Pawn) (NewSquare 1 1)
  let b := Board.Set b (NewPiece White Pawn) (NewSquare 2 1)
  let b := Board.Set b (NewPiece White Pawn) (NewSquare 3 1)
  let b := Board.Set b (NewPiece White Pawn) (NewSquare 4 1)
  let b := Board.Set b (NewPiece White Pawn) (NewSquare 5 1)
  let b := Board.Set b (NewPiece White Pawn) (NewSquare 6 1)
  let b := Board.Set b (NewPiece White Pawn) (NewSquare 7 1)
  let b := Board.Set b (NewPiece Black Rook) A8
  let b := Board.Set b (NewPiece Black Knight) B8
  let b := Board.Set b (NewPiece Black Bishop) C8
  let b := Board.Set b (NewPiece Black Queen) D8
  let b := Board.Set b (NewPiece Black King) E8
  let b := Board.Set b (NewPiece Black Bishop) F8
  let b := Board.Set b (NewPiece Black Knight) G8
  let b := Board.Set b (NewPiece Black Rook) H8
  let b := Board.Set b (NewPiece Black Pawn) (NewSquare 0 6)
  let b := Board.Set b (NewPiece Black Pawn) (NewSquare 1 6)
  let b := Board.Set b (NewPiece Black Pawn) (NewSquare 2 6)
  let b := Board.Set b (NewPiece Black Pawn) (NewSquare 3 6)
  let b := Board.Set b (NewPiece Black Pawn) (NewSquare 4 6)
  let b := Board.Set b (NewPiece Black Pawn) (NewSquare 5 6)
  let b := Board.Set b (NewPiece Black Pawn) (NewSquare 6 6)
  let b := Board.Set b (NewPiece Black Pawn) (NewSquare 7 6)
  b

/-- A `Position` aggregates the board, the turn, both rights trackers,
the ply counter (`uint16`), and the halfmove clock (`uint8`). -/
structure Position where
  Board : Board
  Turn : Color
  Castling : Castling
  EnPassant : EnPassant
  Plies : Nat
  HalfmoveClock : Nat

/-- Go `NewPosition`: the starting position (all fields other than the
board and the castling rights are zero values). -/
def NewPosition : Position :=
  { Board := NewBoard
    Turn := White
    Castling := NewCastling
    EnPassant := 0
    Plies := 0
    HalfmoveClock := 0 }

/-- Go `Position.Move`: makes a move; it does not check for invalid
moves.  The `uint16` ply increment and `uint8` halfmove-clock increment
carry their explicit wrap-arounds. -/
def Position.Move (p : Position) (m : Move) : Position :=
  let fr := m.From
  let toSq := m.To
  let heldPiece := (Board.Piece p.Board fr).getD (NewPiece White Pawn)
  let isPawnMove := heldPiece.PieceType == Pawn
  let isEnPassantCapture := isPawnMove && EnPassant.ExistsAt p.EnPassant toSq
  let isRegularCapture := Board.IsOccupied p.Board toSq
  let isCapture := isRegularCapture || isEnPassantCapture
  let isWhiteTurn := p.Turn == White
  let board1 :=
    if isEnPassantCapture then
      let s0 := (EnPassant.Square p.EnPassant).1
      let s := if isWhiteTurn then (Square.Down s0).1 else (Square.Up s0).1
      Board.Clear p.Board s
    else p.Board
  let isKingMove := heldPiece.PieceType == King
  let c1 := if isKingMove then Castling.ClearColor p.Castling p.Turn else p.Castling
  let c2 :=
    if fr == A1 then Castling.Clear c1 WhiteOOO
    else if fr == H1 then Castling.Clear c1 WhiteOO
    else if fr == A8 then Castling.Clear c1 BlackOOO
    else if fr == H8 then Castling.Clear c1 BlackOO
    else c1
  let c3 :=
    if toSq == A1 then Castling.Clear c2 WhiteOOO
    else if toSq == H1 then Castling.Clear c2 WhiteOO
    else if toSq == A8 then Castling.Clear c2 BlackOOO
    else if toSq == H8 then Castling.Clear c2 BlackOO
    else c2
  let fromRank := Square.Rank fr
  let toRank := Square.Rank toSq
  let isDoublePawnPush :=
    isPawnMove && ((fromRank == 1 && toRank == 3) || (fromRank == 6 && toRank == 4))
  let ep1 :=
    if isDoublePawnPush then
      let s := if isWhiteTurn then (Square.Up fr).1 else (Square.Down fr).1
      EnPassant.Set p.EnPassant s
    else EnPassant.Clear p.EnPassant
  let fromFile := Square.File fr
  let toFile := Square.File toSq
  let isCastlingMove := isKingMove && fromFile == 4 && (toFile == 6 || toFile == 2)
  let board2 :=
    if isCastlingMove then
      let rookSquares : Nat × Nat :=
        if fr == E1 && toSq == G1 then (H1, F1)
        else if fr == E1 && toSq == C1 then (A1, D1)
        else if fr == E8 && toSq == G8 then (H8, F8)
        else if fr == E8 && toSq == C8 then (A8, D8)
        else (0, 0)
      Board.Move board1 (NewPiece p.Turn Rook) rookSquares.1 rookSquares.2
    else board1
  let board3 := Board.Move board2 heldPiece fr toSq
  let board4 :=
    if Move.IsPromotion m then
      Board.Set board3 (NewPiece p.Turn (Move.PromotionTo m).1) toSq
    else board3
  { Board := board4
    Turn := Color.Other p.Turn
    Castling := c3
    EnPassant := ep1
    Plies := (p.Plies + 1) % 2 ^ 16
    HalfmoveClock := if isCapture || isPawnMove then 0 else (p.HalfmoveClock + 1) % 2 ^ 8 }

/-! Bit-level facts about `Square.Bitboard` and the `Bitboard` operations. -/

theorem Square.bitboard_eq_pow {s : Nat} (hs : s < 64) : Square.Bitboard s = 2 ^ s := by
  unfold Square.Bitboard
  rw [Nat.shiftLeft_eq, one_mul]
  exact Nat.mod_eq_of_lt (Nat.pow_lt_pow_right one_lt_two hs)

theorem Square.bitboard_eq_zero {s : Nat} (hs : 64 ≤ s) : Square.Bitboard s = 0 := by
  unfold Square.Bitboard
  rw [Nat.shiftLeft_eq, one_mul]
  exact Nat.mod_eq_zero_of_dvd (pow_dvd_pow 2 hs)

theorem Bitboard.get_eq_testBit (b : Bitboard) {s : Nat} (hs : s < 64) :
    Bitboard.Get b s = b.testBit s := by
  unfold Bitboard.Get
  rw [Square.bitboard_eq_pow hs, Nat.and_two_pow]
  cases h : b.testBit s <;> simp

theorem Bitboard.get_of_ge (b : Bitboard) {s : Nat} (hs : 64 ≤ s) :
    Bitboard.Get b s = false := by
  unfold Bitboard.Get
  rw [Square.bitboard_eq_zero hs, Nat.and_zero]
  rfl

theorem Bitboard.testBit_set_self (b : Bitboard) {s : Nat} (hs : s < 64) :
    (Bitboard.Set b s).testBit s = true := by
  unfold Bitboard.Set
  rw [Square.bitboard_eq_pow hs, Nat.testBit_or, Nat.testBit_two_pow]
  simp

theorem Bitboard.testBit_set_ne (b : Bitboard) {s t : Nat} (h : s ≠ t) :
    (Bitboard.Set b s).testBit t = b.testBit t := by
  unfold Bitboard.Set
  by_cases hs : s < 64
  · rw [Square.bitboard_eq_pow hs, Nat.testBit_or, Nat.testBit_two_pow]
    simp [h]
  · rw [Square.bitboard_eq_zero (le_of_not_lt hs), Nat.or_zero]

theorem Bitboard.testBit_clear_self (b : Bitboard) (s : Nat) :
    (Bitboard.Clear b s).testBit s = false := by
  unfold Bitboard.Clear
  by_cases hs : s < 64
  · rw [Square.bitboard_eq_pow hs, Nat.testBit_and, Nat.testBit_xor,
      Nat.testBit_two_pow_sub_one, Nat.testBit_two_pow]
    simp [hs]
  · rw [Square.bitboard_eq_zero (le_of_not_lt hs), Nat.testBit_and, Nat.testBit_xor,
      Nat.testBit_two_pow_sub_one]
    simp [hs, Nat.zero_testBit]

theorem Bitboard.testBit_clear_ne (b : Bitboard) {s t : Nat} (h : s ≠ t) (ht : t < 64) :
    (Bitboard.Clear b s).testBit t = b.testBit t := by
  unfold Bitboard.Clear
  by_cases hs : s < 64
  · rw [Square.bitboard_eq_pow hs, Nat.testBit_and, Nat.testBit_xor,
      Nat.testBit_two_pow_sub_one, Nat.testBit_two_pow]
    simp [h, ht]
  · rw [Square.bitboard_eq_zero (le_of_not_lt hs), Nat.testBit_and, Nat.testBit_xor,
      Nat.testBit_two_pow_sub_one]
    simp [ht, Nat.zero_testBit]

theorem Bitboard.get_set_self (b : Bitboard) {s : Nat} (hs : s < 64) :
    Bitboard.Get (Bitboard.Set b s) s = true := by
  rw [Bitboard.get_eq_testBit _ hs, Bitboard.testBit_set_self _ hs]

theorem Bitboard.get_set_ne (b : Bitboard) {s t : Nat} (h : s ≠ t) :
    Bitboard.Get (Bitboard.Set b s) t = Bitboard.Get b t := by
  by_cases ht : t < 64
  · rw [Bitboard.get_eq_testBit _ ht, Bitboard.get_eq_testBit _ ht,
      Bitboard.testBit_set_ne _ h]
  · rw [Bitboard.get_of_ge _ (le_of_not_lt ht), Bitboard.get_of_ge _ (le_of_not_lt ht)]

theorem Bitboard.get_clear_self (b : Bitboard) (s : Nat) :
    Bitboard.Get (Bitboard.Clear b s) s = false := by
  by_cases hs : s < 64
  · rw [Bitboard.get_eq_testBit _ hs, Bitboard.testBit_clear_self]
  · exact Bitboard.get_of_ge _ (le_of_not_lt hs)

theorem Bitboard.get_clear_ne (b : Bitboard) {s t : Nat} (h : s ≠ t) :
    Bitboard.Get (Bitboard.Clear b s) t = Bitboard.Get b t := by
  by_cases ht : t < 64
  · rw [Bitboard.get_eq_testBit _ ht, Bitboard.get_eq_testBit _ ht,
      Bitboard.testBit_clear_ne _ h ht]
  · rw [Bitboard.get_of_ge _ (le_of_not_lt ht), Bitboard.get_of_ge _ (le_of_not_lt ht)]

/-! Board-level query lemmas: what `Piece` returns after `Set` and
`Clear`, at the touched square and at any other square. -/

theorem boardPiece_clear_self (b : Board) (s : Nat) :
    Board.Piece (Board.Clear b s) s = none := by
  simp [Board.Piece, Board.PieceColor, Board.Clear, Bitboard.get_clear_self]

theorem boardPiece_set_self (b : Board) (p : Piece) {s : Nat} (hs : s < 64) :
    Board.Piece (Board.Set b p s) s = some p := by
  obtain ⟨c, pt⟩ := p
  cases c <;> fin_cases pt <;>
    simp [Board.Piece, Board.PieceColor, Board.PieceType, Board.Set, Board.Clear,
      NewPiece, Bitboard.get_set_self, Bitboard.get_clear_self, hs]

theorem boardPiece_clear_ne (b : Board) {s t : Nat} (h : s ≠ t) :
    Board.Piece (Board.Clear b s) t = Board.Piece b t := by
  simp [Board.Piece, Board.PieceColor, Board.PieceType, Board.Clear,
    Bitboard.get_clear_ne, h]

theorem boardPiece_set_ne (b : Board) (p : Piece) {s t : Nat} (h : s ≠ t) :
    Board.Piece (Board.Set b p s) t = Board.Piece b t := by
  obtain ⟨c, pt⟩ := p
  cases c <;>
    simp [Board.Piece, Board.PieceColor, Board.PieceType, Board.Set, Board.Clear,
      apply_ite (Bitboard.Get · t), Bitboard.get_set_ne, Bitboard.get_clear_ne, h]

theorem boardPiece_move_self (b : Board) (p : Piece) {fromSq toSq : Nat}
    (ht : toSq < 64) :
    Board.Piece (Board.Move b p fromSq toSq) toSq = some p := by
  rw [Board.Move, boardPiece_set_self _ _ ht]

theorem boardPiece_move_ne (b : Board) (p : Piece) {fromSq toSq t : Nat}
    (h1 : fromSq ≠ t) (h2 : toSq ≠ t) :
    Board.Piece (Board.Move b p fromSq toSq) t = Board.Piece b t := by
  rw [Board.Move, boardPiece_set_ne _ _ h2, boardPiece_clear_ne _ h1]

/-! Castling bitmask algebra. -/

theorem Castling.getAll_self (c : Castling) : Castling.GetAll c c = true := by
  simp [Castling.GetAll, Nat.and_self]

theorem Castling.getAll_clear (c0 x m : Castling) (h : Castling.GetAll c0 x = true) :
    Castling.GetAll c0 (Castling.Clear x m) = true := by
  have h' : c0 &&& x = x := by simpa [Castling.GetAll] using h
  unfold Castling.GetAll Castling.Clear
  rw [← Nat.and_assoc, h']
  simp

theorem Castling.clear_kills (c x r : Castling) (h : (255 ^^^ x) &&& r = 0) :
    Castling.Clear c x &&& r = 0 := by
  rw [Castling.Clear, Nat.and_assoc, h, Nat.and_zero]

theorem Castling.clear_keeps_zero (c m r : Castling) (h : c &&& r = 0) :
    Castling.Clear c m &&& r = 0 := by
  rw [Castling.Clear, Nat.and_assoc, Nat.and_comm (255 ^^^ m) r, ← Nat.and_assoc, h,
    Nat.zero_and]


/-! Projections of `Position.Move`.  Each `positionMove_*` lemma holds by
`rfl` and restates the part of the transition relevant to one field. -/

/-- The castling-rights component of `Position.Move`, spelled out. -/
def castlingAfter (p : Position) (m : Move) : Castling :=
  let fr := m.From
  let toSq := m.To
  let heldPiece := (Board.Piece p.Board fr).getD (NewPiece White Pawn)
  let isKingMove := heldPiece.PieceType == King
  let c1 := if isKingMove then Castling.ClearColor p.Castling p.Turn else p.Castling
  let c2 :=
    if fr == A1 then Castling.Clear c1 WhiteOOO
    else if fr == H1 then Castling.Clear c1 WhiteOO
    else if fr == A8 then Castling.Clear c1 BlackOOO
    else if fr == H8 then Castling.Clear c1 BlackOO
    else c1
  if toSq == A1 then Castling.Clear c2 WhiteOOO
  else if toSq == H1 then Castling.Clear c2 WhiteOO
  else if toSq == A8 then Castling.Clear c2 BlackOOO
  else if toSq == H8 then Castling.Clear c2 BlackOO
  else c2

theorem positionMove_Castling (p : Position) (m : Move) :
    (Position.Move p m).Castling = castlingAfter p m := rfl

theorem positionMove_Turn (p : Position) (m : Move) :
    (Position.Move p m).Turn = Color.Other p.Turn := rfl

theorem positionMove_Plies (p : Position) (m : Move) :
    (Position.Move p m).Plies = (p.Plies + 1) % 2 ^ 16 := rfl

/-- The en-passant component of `Position.Move`, spelled out. -/
def enPassantAfter (p : Position) (m : Move) : EnPassant :=
  let fr := m.From
  let toSq := m.To
  let heldPiece := (Board.Piece p.Board fr).getD (NewPiece White Pawn)
  let isPawnMove := heldPiece.PieceType == Pawn
  let isWhiteTurn := p.Turn == White
  let fromRank := Square.Rank fr
  let toRank := Square.Rank toSq
  let isDoublePawnPush :=
    isPawnMove && ((fromRank == 1 && toRank == 3) || (fromRank == 6 && toRank == 4))
  if isDoublePawnPush then
    let s := if isWhiteTurn then (Square.Up fr).1 else (Square.Down fr).1
    EnPassant.Set p.EnPassant s
  else EnPassant.Clear p.EnPassant

theorem positionMove_EnPassant (p : Position) (m : Move) :
    (Position.Move p m).EnPassant = enPassantAfter p m := rfl

/-- The halfmove-clock component of `Position.Move`, spelled out. -/
def halfmoveClockAfter (p : Position) (m : Move) : Nat :=
  let fr := m.From
  let toSq := m.To
  let heldPiece := (Board.Piece p.Board fr).getD (NewPiece White Pawn)
  let isPawnMove := heldPiece.PieceType == Pawn
  let isEnPassantCapture := isPawnMove && EnPassant.ExistsAt p.EnPassant toSq
  let isRegularCapture := Board.IsOccupied p.Board toSq
  let isCapture := isRegularCapture || isEnPassantCapture
  if isCapture || isPawnMove then 0 else (p.HalfmoveClock + 1) % 2 ^ 8

theorem positionMove_HalfmoveClock (p : Position) (m : Move) :
    (Position.Move p m).HalfmoveClock = halfmoveClockAfter p m := rfl

/-- The board component of `Position.Move`, spelled out. -/
def boardAfter (p : Position) (m : Move) : Board :=
  let fr := m.From
  let toSq := m.To
  let heldPiece := (Board.Piece p.Board fr).getD (NewPiece White Pawn)
  let isPawnMove := heldPiece.PieceType == Pawn
  let isEnPassantCapture := isPawnMove && EnPassant.ExistsAt p.EnPassant toSq
  let isWhiteTurn := p.Turn == White
  let board1 :=
    if isEnPassantCapture then
      let s0 := (EnPassant.Square p.EnPassant).1
      let s := if isWhiteTurn then (Square.Down s0).1 else (Square.Up s0).1
      Board.Clear p.Board s
    else p.Board
  let isKingMove := heldPiece.PieceType == King
  let fromFile := Square.File fr
  let toFile := Square.File toSq
  let isCastlingMove := isKingMove && fromFile == 4 && (toFile == 6 || toFile == 2)
  let board2 :=
    if isCastlingMove then
      let rookSquares : Nat × Nat :=
        if fr == E1 && toSq == G1 then (H1, F1)
        else if fr == E1 && toSq == C1 then (A1, D1)
        else if fr == E8 && toSq == G8 then (H8, F8)
        else if fr == E8 && toSq == C8 then (A8, D8)
        else (0, 0)
      Board.Move board1 (NewPiece p.Turn Rook) rookSquares.1 rookSquares.2
    else board1
  let board3 := Board.Move board2 heldPiece fr toSq
  if Move.IsPromotion m then
    Board.Set board3 (NewPiece p.Turn (Move.PromotionTo m).1) toSq
  else board3

set_option maxHeartbeats 2000000 in
theorem positionMove_Board (p : Position) (m : Move) :
    (Position.Move p m).Board = boardAfter p m := rfl

theorem Castling.getAll_cornerChain (c0 x : Castling) (sq : Nat)
    (h : Castling.GetAll c0 x = true) :
    Castling.GetAll c0
      (if sq == A1 then Castling.Clear x WhiteOOO
       else if sq == H1 then Castling.Clear x WhiteOO
       else if sq == A8 then Castling.Clear x BlackOOO
       else if sq == H8 then Castling.Clear x BlackOO
       else x) = true := by
  split_ifs <;> first | exact h | exact Castling.getAll_clear _ _ _ h

/-- C3: castling rights are monotonically non-increasing under move
application: for every position `p` and move `m`, every castling right
held after `Position.Move p m` was already held in `p` (the rights after
the move are a subset of the rights before, stated with the code's own
subset test `Castling.GetAll`). -/
theorem castling_rights_subset_after_move (p : Position) (m : Move) :
    Castling.GetAll p.Castling (Position.Move p m).Castling = true := by
  rw [positionMove_Castling]
  unfold castlingAfter
  dsimp only
  apply Castling.getAll_cornerChain
  apply Castling.getAll_cornerChain
  split
  · exact Castling.getAll_clear _ _ _ (Castling.getAll_self _)
  · exact Castling.getAll_self _

/-- C9 counterexample: the ply counter is a 16-bit unsigned integer, so a
move applied at `Plies = 65535` wraps the counter to 0 instead of
increasing it by exactly 1. -/
theorem plies_wrap_counterexample :
    ¬((Position.Move { NewPosition with Plies := 65535 }
        { From := B1, To := C3, promotion := Pawn }).Plies =
      ({ NewPosition with Plies := 65535 } : Position).Plies + 1) := by
  decide

/-- C9 (amended): applying any move sets the ply counter to
`(Plies + 1) % 2 ^ 16`; in particular it increases by exactly 1 whenever
the counter is below its 16-bit maximum 65535. -/
theorem plies_after_move (p : Position) (m : Move) :
    (Position.Move p m).Plies = (p.Plies + 1) % 2 ^ 16 ∧
      (p.Plies < 65535 → (Position.Move p m).Plies = p.Plies + 1) := by
  refine ⟨rfl, fun h => ?_⟩
  show (p.Plies + 1) % 2 ^ 16 = p.Plies + 1
  omega

/-- C9 witness: from the start position, one move brings the ply counter
to 1. -/
theorem plies_after_move_witness :
    (Position.Move NewPosition { From := E2, To := E4, promotion := Pawn }).Plies = 1 :=
  (plies_after_move NewPosition { From := E2, To := E4, promotion := Pawn }).2 (by decide)

/-- C2 counterexample: the halfmove clock is a `uint8`, so a quiet
non-pawn move applied at `HalfmoveClock = 255` wraps the clock to 0
instead of incrementing it by exactly 1. -/
theorem halfmove_clock_wrap_counterexample :
    ¬((Position.Move { NewPosition with HalfmoveClock := 255 }
        { From := B1, To := C3, promotion := Pawn }).HalfmoveClock =
      ({ NewPosition with HalfmoveClock := 255 } : Position).HalfmoveClock + 1) := by
  decide

/-- C2 (amended): for a move whose from square holds piece `pc`, the
halfmove clock after `Position.Move` is 0 if the move is any capture
(regular, or en passant by a pawn) or any pawn move, and otherwise is
`(HalfmoveClock + 1) % 2 ^ 8`, i.e. an increment by exactly 1 until the
8-bit clock wraps at 255. -/
theorem halfmove_clock_update (p : Position) (m : Move) (pc : Piece)
    (hp : Board.Piece p.Board m.From = some pc) :
    (Position.Move p m).HalfmoveClock =
      if (Board.IsOccupied p.Board m.To
            || (pc.PieceType == Pawn && EnPassant.ExistsAt p.EnPassant m.To))
          || pc.PieceType == Pawn
      then 0
      else (p.HalfmoveClock + 1) % 2 ^ 8 := by
  rw [positionMove_HalfmoveClock]
  unfold halfmoveClockAfter
  dsimp only
  rw [hp]
  rfl

/-- C2 witness: a quiet knight move from the start position sets the
halfmove clock to 1. -/
theorem halfmove_clock_update_witness :
    (Position.Move NewPosition { From := B1, To := C3, promotion := Pawn }).HalfmoveClock = 1 := by
  rw [halfmove_clock_update NewPosition _ (NewPiece White Knight) (by decide)]
  decide

theorem rank_one_up_ne_zero (x : Nat) (hx : x / 8 = 1) : (x + 8) % 256 ≠ 0 := by omega

theorem rank_six_down_ne_zero (x : Nat) (hx : x / 8 = 6) : x - 8 ≠ 0 := by omega

theorem rank_one_up_mod (x : Nat) (hx : x / 8 = 1) : (x + 8) % 256 = x + 8 := by omega

/-- C1: after applying a trusted-legal move (the from square holds piece
`pc`, and when the moved piece is a pawn a double-push rank pattern only
occurs for the side whose direction it matches), the en-passant right
exists if and only if the move was a double pawn push (a pawn moving
from rank 2 to rank 4 or from rank 7 to rank 5), and on a double pawn
push the right is set on the square the pawn passed over; after any
other move it does not exist, even if it existed before the move. -/
theorem enpassant_after_move_iff_double_pawn_push (p : Position) (m : Move) (pc : Piece)
    (hp : Board.Piece p.Board m.From = some pc)
    (hw : pc.PieceType = Pawn → Square.Rank m.From = 1 → Square.Rank m.To = 3 →
      p.Turn = White)
    (hb : pc.PieceType = Pawn → Square.Rank m.From = 6 → Square.Rank m.To = 4 →
      p.Turn = Black) :
    (EnPassant.Exists (Position.Move p m).EnPassant = true ↔
      pc.PieceType = Pawn ∧
        ((Square.Rank m.From = 1 ∧ Square.Rank m.To = 3) ∨
         (Square.Rank m.From = 6 ∧ Square.Rank m.To = 4))) ∧
      (pc.PieceType = Pawn → Square.Rank m.From = 1 → Square.Rank m.To = 3 →
        EnPassant.ExistsAt (Position.Move p m).EnPassant (m.From + 8) = true) ∧
      (pc.PieceType = Pawn → Square.Rank m.From = 6 → Square.Rank m.To = 4 →
        EnPassant.ExistsAt (Position.Move p m).EnPassant (m.From - 8) = true) := by
  rw [positionMove_EnPassant]
  unfold enPassantAfter
  dsimp only
  rw [hp]
  simp only [Option.getD_some]
  refine ⟨?_, ?_, ?_⟩
  · by_cases hpt : pc.PieceType = Pawn
    · have hptb : (pc.PieceType == Pawn) = true := by simpa using hpt
      simp only [hptb, Bool.true_and, hpt, true_and]
      by_cases h1a : Square.Rank m.From = 1
      · by_cases h1b : Square.Rank m.To = 3
        · rw [hw hpt h1a h1b]
          have hnz : (m.From + 8) % 256 ≠ 0 := rank_one_up_ne_zero m.From h1a
          simp [h1a, h1b, Square.Up, Square.Above, EnPassant.Set, EnPassant.Exists, hnz]
        · simp [h1a, h1b, EnPassant.Clear, EnPassant.Exists]
      · by_cases h6a : Square.Rank m.From = 6
        · by_cases h6b : Square.Rank m.To = 4
          · rw [hb hpt h6a h6b]
            have hnz : m.From - 8 ≠ 0 := rank_six_down_ne_zero m.From h6a
            simp [h1a, h6a, h6b, Square.Down, Square.Below, EnPassant.Set,
              EnPassant.Exists, hnz]
          · simp [h1a, h6a, h6b, EnPassant.Clear, EnPassant.Exists]
        · simp [h1a, h6a, EnPassant.Clear, EnPassant.Exists]
    · have hptb : (pc.PieceType == Pawn) = false := by simpa using hpt
      simp [hptb, hpt, EnPassant.Clear, EnPassant.Exists]
  · intro hpt h1a h1b
    rw [hw hpt h1a h1b]
    have hptb : (pc.PieceType == Pawn) = true := by simpa using hpt
    have hnz : (m.From + 8) % 256 ≠ 0 := rank_one_up_ne_zero m.From h1a
    have hmod : (m.From + 8) % 256 = m.From + 8 := rank_one_up_mod m.From h1a
    simp [hptb, h1a, h1b, Square.Up, Square.Above, EnPassant.Set, EnPassant.ExistsAt,
      EnPassant.Square, EnPassant.Exists, hnz, hmod]
  · intro hpt h6a h6b
    rw [hb hpt h6a h6b]
    have hptb : (pc.PieceType == Pawn) = true := by simpa using hpt
    have h1a : Square.Rank m.From ≠ 1 := by rw [h6a]; decide
    have hnz : m.From - 8 ≠ 0 := rank_six_down_ne_zero m.From h6a
    simp [hptb, h1a, h6a, h6b, Square.Down, Square.Below, EnPassant.Set,
      EnPassant.ExistsAt, EnPassant.Square, EnPassant.Exists, hnz]

/-- C1 witness: after the double pawn push e2e4 from the start position,
the en-passant right exists, and it is set on e3, the square the pawn
passed over. -/
theorem enpassant_after_move_iff_double_pawn_push_witness :
    EnPassant.Exists (Position.Move NewPosition
        { From := E2, To := E4, promotion := Pawn }).EnPassant = true ∧
      EnPassant.ExistsAt (Position.Move NewPosition
        { From := E2, To := E4, promotion := Pawn }).EnPassant E3 = true := by
  have h := enpassant_after_move_iff_double_pawn_push NewPosition
    { From := E2, To := E4, promotion := Pawn } (NewPiece White Pawn)
    (by decide) (fun _ _ _ => rfl) (fun _ h6 _ => absurd h6 (by decide))
  exact ⟨h.1.2 ⟨rfl, Or.inl ⟨rfl, rfl⟩⟩, h.2.1 rfl rfl rfl⟩

/-- One corner-square switch of `Position.Move`: clears the right tied to
`sq` when `sq` is a corner, else leaves `x` unchanged. -/
def cornerChain (sq : Nat) (x : Castling) : Castling :=
  if sq == A1 then Castling.Clear x WhiteOOO
  else if sq == H1 then Castling.Clear x WhiteOO
  else if sq == A8 then Castling.Clear x BlackOOO
  else if sq == H8 then Castling.Clear x BlackOO
  else x

theorem castlingAfter_eq (p : Position) (m : Move) :
    castlingAfter p m =
      cornerChain m.To (cornerChain m.From
        (if ((Board.Piece p.Board m.From).getD (NewPiece White Pawn)).PieceType == King
         then Castling.ClearColor p.Castling p.Turn
         else p.Castling)) := rfl

/-- Maps a corner square to the one castling right tied to it, following
the switch cases of `Position.Move` (any other square maps to no right). -/
def cornerRight (s : Square) : Castling :=
  if s = A1 then WhiteOOO
  else if s = H1 then WhiteOO
  else if s = A8 then BlackOOO
  else if s = H8 then BlackOO
  else 0

theorem cornerChain_self (sq : Nat) (x : Castling)
    (h : sq = A1 ∨ sq = H1 ∨ sq = A8 ∨ sq = H8) :
    cornerChain sq x &&& cornerRight sq = 0 := by
  rcases h with rfl | rfl | rfl | rfl <;>
    exact Castling.clear_kills _ _ _ (by decide)

theorem cornerChain_keeps_zero (sq : Nat) (x : Castling) (r : Castling)
    (h : x &&& r = 0) : cornerChain sq x &&& r = 0 := by
  unfold cornerChain
  split_ifs <;> first | exact h | exact Castling.clear_keeps_zero _ _ _ h

/-- C4: for every move whose from or to square is one of the four corner
squares A1, H1, A8, H8, applying the move clears the one castling right
tied to that corner, regardless of which piece departs from or lands on
it. -/
theorem corner_move_clears_right (p : Position) (m : Move) (c : Square)
    (hc : c = A1 ∨ c = H1 ∨ c = A8 ∨ c = H8)
    (hm : m.From = c ∨ m.To = c) :
    Castling.GetAny (Position.Move p m).Castling (cornerRight c) = false := by
  have key : (Position.Move p m).Castling &&& cornerRight c = 0 := by
    rw [positionMove_Castling, castlingAfter_eq]
    rcases hm with hm | hm
    · rw [← hm]
      exact cornerChain_keeps_zero _ _ _ (cornerChain_self _ _ (hm ▸ hc))
    · rw [← hm]
      exact cornerChain_self _ _ (hm ▸ hc)
  simp [Castling.GetAny, key]

/-- C4 witness: a rook move a1a8 (capturing the enemy rook on a8 when
played from the start position) leaves the Black queenside right
cleared. -/
theorem corner_move_clears_right_witness :
    Castling.GetAny (Position.Move NewPosition
      { From := A1, To := A8, promotion := Pawn }).Castling (cornerRight A8) = false :=
  corner_move_clears_right NewPosition { From := A1, To := A8, promotion := Pawn } A8
    (Or.inr (Or.inr (Or.inl rfl))) (Or.inr rfl)

/-- C5: kingside castling: applying e1g1 when it is White's turn with the
White king on e1 and a White rook on h1 leaves the king on g1 and the
rook on f1, clears both White castling rights, and sets the turn to
Black. -/
theorem kingside_castling_e1g1 (p : Position)
    (hT : p.Turn = White)
    (hK : Board.Piece p.Board E1 = some (NewPiece White King))
    (_hR : Board.Piece p.Board H1 = some (NewPiece White Rook)) :
    Board.Piece (Position.Move p { From := E1, To := G1, promotion := Pawn }).Board G1 =
        some (NewPiece White King) ∧
      Board.Piece (Position.Move p { From := E1, To := G1, promotion := Pawn }).Board F1 =
        some (NewPiece White Rook) ∧
      Castling.GetAny (Position.Move p { From := E1, To := G1, promotion := Pawn }).Castling
        (WhiteOO ||| WhiteOOO) = false ∧
      (Position.Move p { From := E1, To := G1, promotion := Pawn }).Turn = Black := by
  have hb : (Position.Move p { From := E1, To := G1, promotion := Pawn }).Board =
      Board.Move (Board.Move p.Board (NewPiece White Rook) H1 F1)
        (NewPiece White King) E1 G1 := by
    rw [positionMove_Board]
    unfold boardAfter
    dsimp only
    rw [hK, hT]
    rfl
  refine ⟨?_, ?_, ?_, ?_⟩
  · rw [hb]
    exact boardPiece_move_self _ _ (by decide)
  · rw [hb, boardPiece_move_ne _ _ (show E1 ≠ F1 by decide) (show G1 ≠ F1 by decide)]
    exact boardPiece_move_self _ _ (by decide)
  · rw [positionMove_Castling, castlingAfter_eq]
    dsimp only
    rw [hK, hT]
    show Castling.GetAny (Castling.Clear p.Castling 3) 3 = false
    have key : Castling.Clear p.Castling 3 &&& 3 = 0 :=
      Castling.clear_kills _ _ _ (by decide)
    simp [Castling.GetAny, key]
  · rw [positionMove_Turn, hT]
    rfl

/-- C5 witness: the scenario instantiated at the start position (the move
is applied mechanically; `Position.Move` performs no legality check). -/
theorem kingside_castling_e1g1_witness :
    Board.Piece (Position.Move NewPosition { From := E1, To := G1, promotion := Pawn }).Board G1 =
        some (NewPiece White King) ∧
      Board.Piece (Position.Move NewPosition { From := E1, To := G1, promotion := Pawn }).Board F1 =
        some (NewPiece White Rook) ∧
      Castling.GetAny (Position.Move NewPosition { From := E1, To := G1, promotion := Pawn }).Castling
        (WhiteOO ||| WhiteOOO) = false ∧
      (Position.Move NewPosition { From := E1, To := G1, promotion := Pawn }).Turn = Black :=
  kingside_castling_e1g1 NewPosition rfl (by decide) (by decide)

/-- C6: en passant capture: applying e5d6 when it is White's turn, a
White pawn stands on e5, an enemy pawn stands on d5, and the en-passant
square is d6, removes the enemy pawn from d5 (the square directly behind
the destination) and resets the halfmove clock to 0. -/
theorem enpassant_capture_e5d6 (p : Position)
    (hT : p.Turn = White)
    (hP : Board.Piece p.Board E5 = some (NewPiece White Pawn))
    (_hE : Board.Piece p.Board D5 = some (NewPiece Black Pawn))
    (hEP : p.EnPassant = D6) :
    Board.Piece (Position.Move p { From := E5, To := D6, promotion := Pawn }).Board D5 = none ∧
      (Position.Move p { From := E5, To := D6, promotion := Pawn }).HalfmoveClock = 0 := by
  have hb : (Position.Move p { From := E5, To := D6, promotion := Pawn }).Board =
      Board.Move (Board.Clear p.Board D5) (NewPiece White Pawn) E5 D6 := by
    rw [positionMove_Board]
    unfold boardAfter
    dsimp only
    rw [hP, hEP, hT]
    rfl
  constructor
  · rw [hb, boardPiece_move_ne _ _ (show E5 ≠ D5 by decide) (show D6 ≠ D5 by decide)]
    exact boardPiece_clear_self _ _
  · rw [positionMove_HalfmoveClock]
    unfold halfmoveClockAfter
    dsimp only
    rw [hP, hEP]
    simp [EnPassant.ExistsAt, EnPassant.Square, EnPassant.Exists, NewPiece]

/-- C6 witness: the scenario instantiated on a concrete position built
from the start board by placing a White pawn on e5 and a Black pawn on
d5, with the en-passant square d6 and a nonzero halfmove clock. -/
theorem enpassant_capture_e5d6_witness :
    Board.Piece (Position.Move
      { Board := Board.Set (Board.Set NewBoard (NewPiece White Pawn) E5) (NewPiece Black Pawn) D5,
        Turn := White, Castling := NewCastling, EnPassant := D6, Plies := 20, HalfmoveClock := 7 }
      { From := E5, To := D6, promotion := Pawn }).Board D5 = none ∧
      (Position.Move
        { Board := Board.Set (Board.Set NewBoard (NewPiece White Pawn) E5) (NewPiece Black Pawn) D5,
          Turn := White, Castling := NewCastling, EnPassant := D6, Plies := 20, HalfmoveClock := 7 }
        { From := E5, To := D6, promotion := Pawn }).HalfmoveClock = 0 :=
  enpassant_capture_e5d6 _ rfl (by decide) (by decide) rfl

/-- C7: for every piece `pc` and square `s`, clearing `s` on the starting
board and then setting `pc` there yields exactly `pc` at `s`, and the
piece occupancy of every other square is unchanged. -/
theorem clear_then_set_on_newboard (pc : Piece) (s : Nat) (hs : s < 64) :
    Board.Piece (Board.Set (Board.Clear NewBoard s) pc s) s = some pc ∧
      ∀ t, t ≠ s →
        Board.Piece (Board.Set (Board.Clear NewBoard s) pc s) t = Board.Piece NewBoard t := by
  constructor
  · exact boardPiece_set_self _ _ hs
  · intro t ht
    rw [boardPiece_set_ne _ _ (Ne.symm ht), boardPiece_clear_ne _ (Ne.symm ht)]

/-- C7 witness: placing a Black queen on a1 after clearing it, with e2
unchanged. -/
theorem clear_then_set_on_newboard_witness :
    Board.Piece (Board.Set (Board.Clear NewBoard A1) (NewPiece Black Queen) A1) A1 =
        some (NewPiece Black Queen) ∧
      Board.Piece (Board.Set (Board.Clear NewBoard A1) (NewPiece Black Queen) A1) E2 =
        Board.Piece NewBoard E2 :=
  ⟨(clear_then_set_on_newboard (NewPiece Black Queen) A1 (by decide)).1,
   (clear_then_set_on_newboard (NewPiece Black Queen) A1 (by decide)).2 E2 (by decide)⟩

/-- C10: setting the en-passant right at A1 is indistinguishable from
having no right, because the zero byte encodes both square A1 and the
absence of the right; for every other square `s`, `Set s` followed by
`Square` yields `(s, true)` and `Exists` is true. -/
theorem enpassant_a1_aliasing (e : EnPassant) (s : Nat) (_hs : s < 64) :
    (s = A1 →
      EnPassant.Exists (EnPassant.Set e s) = false ∧
        EnPassant.Square (EnPassant.Set e s) = (A1, false)) ∧
    (s ≠ A1 →
      EnPassant.Square (EnPassant.Set e s) = (s, true) ∧
        EnPassant.Exists (EnPassant.Set e s) = true) := by
  constructor
  · rintro rfl
    exact ⟨rfl, rfl⟩
  · intro h
    have hb : (s != 0) = true := by simpa using h
    refine ⟨?_, hb⟩
    unfold EnPassant.Set EnPassant.Square EnPassant.Exists
    rw [hb]

/-- C10 witness: instantiated at a prior right on h1 overwritten with A1,
and with d6. -/
theorem enpassant_a1_aliasing_witness :
    (EnPassant.Exists (EnPassant.Set 7 A1) = false ∧
        EnPassant.Square (EnPassant.Set 7 A1) = (A1, false)) ∧
      (EnPassant.Square (EnPassant.Set 7 D6) = (D6, true) ∧
        EnPassant.Exists (EnPassant.Set 7 D6) = true) :=
  ⟨(enpassant_a1_aliasing 7 A1 (by decide)).1 rfl,
   (enpassant_a1_aliasing 7 D6 (by decide)).2 (by decide)⟩

/-- The Board representation invariant from the spec: on every square at
most one color bit and at most one piece-type bit is set, and a color bit
is set exactly when some piece-type bit is set. -/
def Board.WellFormed (b : Board) : Prop :=
  ∀ s : Nat, s < 64 →
    (¬(Bitboard.Get b.white s = true ∧ Bitboard.Get b.black s = true)) ∧
    (∀ i j : Fin 6, i ≠ j →
      ¬(Bitboard.Get (b.pieces i) s = true ∧ Bitboard.Get (b.pieces j) s = true)) ∧
    ((Bitboard.Get b.white s = true ∨ Bitboard.Get b.black s = true) ↔
      ∃ i, Bitboard.Get (b.pieces i) s = true)

theorem boardSet_white (b : Board) (pc : Piece) (s : Nat) :
    (Board.Set b pc s).white =
      if pc.Color == White then Bitboard.Set (Bitboard.Clear b.white s) s
      else Bitboard.Clear b.white s := by
  obtain ⟨c, pt⟩ := pc
  cases c <;> rfl

theorem boardSet_black (b : Board) (pc : Piece) (s : Nat) :
    (Board.Set b pc s).black =
      if pc.Color == White then Bitboard.Clear b.black s
      else Bitboard.Set (Bitboard.Clear b.black s) s := by
  obtain ⟨c, pt⟩ := pc
  cases c <;> rfl

theorem boardSet_pieces (b : Board) (pc : Piece) (s : Nat) (i : Fin 6) :
    (Board.Set b pc s).pieces i =
      if i == pc.PieceType then Bitboard.Set (Bitboard.Clear (b.pieces i) s) s
      else Bitboard.Clear (b.pieces i) s := by
  obtain ⟨c, pt⟩ := pc
  cases c <;> rfl

theorem wellFormed_clear (b : Board) (s : Nat) (h : Board.WellFormed b) :
    Board.WellFormed (Board.Clear b s) := by
  intro t ht
  by_cases hst : s = t
  · subst hst
    simp [Board.Clear, Bitboard.get_clear_self]
  · have ht' := h t ht
    simp only [Board.Clear] at *
    simp only [Bitboard.get_clear_ne _ hst]
    exact ht'

theorem wellFormed_set (b : Board) (pc : Piece) (s : Nat) (h : Board.WellFormed b) :
    Board.WellFormed (Board.Set b pc s) := by
  obtain ⟨c, pt⟩ := pc
  intro t ht
  by_cases hst : s = t
  · subst hst
    have hww : Bitboard.Get (Board.Set b ⟨c, pt⟩ s).white s = (c == White) := by
      rw [boardSet_white]
      cases c <;> simp [Bitboard.get_set_self, Bitboard.get_clear_self, ht]
    have hbb : Bitboard.Get (Board.Set b ⟨c, pt⟩ s).black s = (c == Black) := by
      rw [boardSet_black]
      cases c <;> simp [Bitboard.get_set_self, Bitboard.get_clear_self, ht]
    have hp : ∀ i : Fin 6, Bitboard.Get ((Board.Set b ⟨c, pt⟩ s).pieces i) s = (i == pt) := by
      intro i
      rw [boardSet_pieces]
      by_cases hi : (i == pt) = true
      · simp [hi, Bitboard.get_set_self, ht]
      · simp [Bool.not_eq_true] at hi
        simp [hi, Bitboard.get_clear_self]
    refine ⟨?_, ?_, ?_⟩
    · rw [hww, hbb]
      cases c <;> simp
    · intro i j hij hcon
      rw [hp i, hp j] at hcon
      obtain ⟨h1, h2⟩ := hcon
      simp only [beq_iff_eq] at h1 h2
      exact hij (h1.trans h2.symm)
    · rw [hww, hbb]
      constructor
      · intro _
        exact ⟨pt, by rw [hp pt]; simp⟩
      · intro _
        cases c <;> simp
  · have hw2 : Bitboard.Get (Board.Set b ⟨c, pt⟩ s).white t = Bitboard.Get b.white t := by
      rw [boardSet_white]
      cases c <;> simp [Bitboard.get_set_ne _ hst, Bitboard.get_clear_ne _ hst]
    have hb2 : Bitboard.Get (Board.Set b ⟨c, pt⟩ s).black t = Bitboard.Get b.black t := by
      rw [boardSet_black]
      cases c <;> simp [Bitboard.get_set_ne _ hst, Bitboard.get_clear_ne _ hst]
    have hp2 : ∀ i : Fin 6, Bitboard.Get ((Board.Set b ⟨c, pt⟩ s).pieces i) t =
        Bitboard.Get (b.pieces i) t := by
      intro i
      rw [boardSet_pieces]
      by_cases hi : (i == pt) = true
      · simp [hi, Bitboard.get_set_ne _ hst, Bitboard.get_clear_ne _ hst]
      · simp only [Bool.not_eq_true] at hi
        simp [hi, Bitboard.get_clear_ne _ hst]
    simp only [hw2, hb2, hp2]
    exact h t ht

theorem wellFormed_move (b : Board) (pc : Piece) (fromSq toSq : Nat)
    (h : Board.WellFormed b) : Board.WellFormed (Board.Move b pc fromSq toSq) :=
  wellFormed_set _ _ _ (wellFormed_clear _ _ h)

theorem wellFormed_newBoard : Board.WellFormed NewBoard := by
  have h0 : Board.WellFormed { white := 0, black := 0, pieces := fun _ => 0 } := by
    intro s hs
    simp [Bitboard.Get]
  unfold NewBoard
  dsimp only
  repeat' apply wellFormed_set
  exact h0

/-- C8: every Board operation preserves the invariant that each square
holds at most one color bit and at most one piece-type bit, with color
and piece-type membership agreeing: the starting board satisfies it, and
`Set`, `Clear`, and `Move` each preserve it. -/
theorem board_ops_preserve_wellformed :
    Board.WellFormed NewBoard ∧
      (∀ (b : Board) (pc : Piece) (s : Nat),
        Board.WellFormed b → Board.WellFormed (Board.Set b pc s)) ∧
      (∀ (b : Board) (s : Nat),
        Board.WellFormed b → Board.WellFormed (Board.Clear b s)) ∧
      (∀ (b : Board) (pc : Piece) (fromSq toSq : Nat),
        Board.WellFormed b → Board.WellFormed (Board.Move b pc fromSq toSq)) :=
  ⟨wellFormed_newBoard,
   fun b pc s h => wellFormed_set b pc s h,
   fun b s h => wellFormed_clear b s h,
   fun b pc fromSq toSq h => wellFormed_move b pc fromSq toSq h⟩

/-- C8 witness: the invariant holds after setting a White queen on e4 on
the starting board. -/
theorem board_ops_preserve_wellformed_witness :
    Board.WellFormed (Board.Set NewBoard (NewPiece White Queen) E4) :=
  board_ops_preserve_wellformed.2.1 NewBoard (NewPiece White Queen) E4
    board_ops_preserve_wellformed.1
